import Mathlib

/-!
Verification of the trade-simulation and performance-accounting engine
(`src/backtest.py`, `src/position_sizing.py`, `src/risk.py`) against its
natural-language specification.  Prices, equity and percentages are modelled
as rationals; bar timestamps as natural-number indices; missing (NaN) fields
as `Option`; the optional strategy exit hook as an optional Lean function.
-/

/-- Configuration constant `MAX_POSITION_SIZE_PCT` from `config.py` (0.30). -/
def MAX_POSITION_SIZE_PCT : ℚ := 3 / 10

/-- Configuration constant `MAX_RISK_PER_TRADE_PCT` from `config.py` (0.01). -/
def MAX_RISK_PER_TRADE_PCT : ℚ := 1 / 100

/-- Configuration constant `MIN_STOCK_PRICE` from `config.py` (2.0). -/
def MIN_STOCK_PRICE : ℚ := 2

/-- Configuration constant `MIN_AVG_DOLLAR_VOLUME` from `config.py` (1,000,000). -/
def MIN_AVG_DOLLAR_VOLUME : ℚ := 1000000

/-- Configuration constant `MAX_POSITIONS` from `config.py` (2). -/
def MAX_POSITIONS : ℕ := 2

/-- Configuration constant `LEVERAGE_ALLOWED` from `config.py` (False). -/
def LEVERAGE_ALLOWED : Bool := false

/-- Python `int()` applied to a rational: truncation toward zero. -/
def pyInt (q : ℚ) : ℤ := if 0 ≤ q then ⌊q⌋ else -⌊-q⌋

/-- One OHLCV bar with the fields the engine reads: `high`, `low`, `close`,
the optional `atr_14` indicator (absent or NaN modelled as `none`), the
boolean entry signal (`signal == 1`) and the optional `entry`/`stop`/`target`
prices attached by the strategy (NaN modelled as `none`). -/
structure Bar where
  high : ℚ
  low : ℚ
  close : ℚ
  atr : Option ℚ
  signal : Bool
  entry : Option ℚ
  stop : Option ℚ
  target : Option ℚ
deriving DecidableEq

/-- Structure `PositionSizer` from `position_sizing.py`: equity plus the two caps
(defaults come from `config.py`). -/
structure PositionSizer where
  equity : ℚ
  max_position_pct : ℚ
  max_risk_pct : ℚ
deriving DecidableEq

/-- The result dict of `PositionSizer.calculate_shares`. -/
structure SizingResult where
  shares : ℤ
  position_value : ℚ
  position_pct : ℚ
  risk_dollars : ℚ
  risk_pct : ℚ
  risk_per_share : ℚ
  valid : Bool
  reason : String
deriving DecidableEq

/-- The all-zero / invalid result dict initialised at the top of
`calculate_shares`. -/
def SizingResult.base : SizingResult :=
  ⟨0, 0, 0, 0, 0, 0, false, ""⟩

/-- Method `PositionSizer.calculate_shares(entry_price, stop_price, risk_pct)` from
`position_sizing.py`: validation checks in source order, risk-based and
cap-based share counts truncated with Python `int()`, the `shares < 1`
rejection, the two post-checks, and the success update. -/
def calculate_shares (ps : PositionSizer) (entry_price stop_price : ℚ)
    (risk_pct_arg : Option ℚ) : SizingResult :=
  let risk_pct := risk_pct_arg.getD ps.max_risk_pct
  if entry_price ≤ 0 then
    { SizingResult.base with reason := "Entry price must be positive" }
  else if stop_price ≤ 0 then
    { SizingResult.base with reason := "Stop price must be positive" }
  else if entry_price ≤ stop_price then
    { SizingResult.base with reason := "Stop price must be below entry price (long only)" }
  else if ps.equity ≤ 0 then
    { SizingResult.base with reason := "Equity must be positive" }
  else
    let risk_per_share := entry_price - stop_price
    let r1 := { SizingResult.base with risk_per_share := risk_per_share }
    let max_risk_dollars := ps.equity * risk_pct
    let shares_by_risk := pyInt (max_risk_dollars / risk_per_share)
    let max_position_dollars := ps.equity * ps.max_position_pct
    let shares_by_position_size := pyInt (max_position_dollars / entry_price)
    let shares := min shares_by_risk shares_by_position_size
    if shares < 1 then
      { r1 with reason := "Position size rounds to 0 shares (insufficient equity or risk too small)" }
    else
      let position_value := (shares : ℚ) * entry_price
      let position_pct := position_value / ps.equity
      let risk_dollars := (shares : ℚ) * risk_per_share
      let actual_risk_pct := risk_dollars / ps.equity
      if position_pct > ps.max_position_pct then
        { r1 with reason := "position size exceeds max" }
      else if actual_risk_pct > ps.max_risk_pct then
        { r1 with reason := "risk exceeds max" }
      else
        { shares := shares, position_value := position_value,
          position_pct := position_pct, risk_dollars := risk_dollars,
          risk_pct := actual_risk_pct, risk_per_share := risk_per_share,
          valid := true, reason := "OK" }

/-- The optional strategy exit hook `check_exit(entry_price, current_price,
current_atr, stop)` of `strategies`: returns `(should_exit, new_stop, reason)`.
The backtester detects it with `hasattr`, modelled as `Option ExitPolicy`. -/
def ExitPolicy : Type := ℚ → ℚ → ℚ → ℚ → Bool × ℚ × String

/-- The `Backtester.__init__` state from `backtest.py`: the three configuration
fields are stored verbatim; the constructor performs no validation. -/
structure Backtester where
  initial_capital : ℚ
  commission : ℚ
  slippage_pct : ℚ
deriving DecidableEq

/-- One row of the trade ledger built by `Backtester._execute_trades`. -/
structure TradeRec where
  entry_date : ℕ
  exit_date : ℕ
  entry_price : ℚ
  exit_price : ℚ
  shares : ℤ
  position_value : ℚ
  stop_price : ℚ
  target_price : ℚ
  gross_pnl : ℚ
  commission : ℚ
  slippage : ℚ
  net_pnl : ℚ
  return_pct : ℚ
  r_multiple : ℚ
  exit_reason : String
  equity_after : ℚ
deriving DecidableEq

/-- The loop of `Backtester._find_exit`, instrumented: besides the exit result
it also returns the trace of `current_stop` values as evaluated at each bar.
Per bar, in source order: target check (`high ≥ target_price`), stop check
(`low ≤ current_stop`), then the optional strategy hook — which is called with
the ORIGINAL `stop_price` as its fourth argument, whose returned `new_stop`
only ever raises `current_stop` (`max`), and which may exit at the bar close. -/
def findExitLoop (strat : Option ExitPolicy) (entry_price stop_price target_price : ℚ) :
    List (ℕ × Bar) → ℚ → List ℚ × Option (ℕ × ℚ × String)
  | [], _ => ([], none)
  | (idx, bar) :: rest, current_stop =>
    if bar.high ≥ target_price then
      ([current_stop], some (idx, target_price, "target"))
    else if bar.low ≤ current_stop then
      ([current_stop], some (idx, current_stop, "stop"))
    else
      match strat with
      | none =>
        let r := findExitLoop strat entry_price stop_price target_price rest current_stop
        (current_stop :: r.1, r.2)
      | some check =>
        let res := check entry_price bar.close (bar.atr.getD 0) stop_price
        let current_stop2 := max current_stop res.2.1
        if res.1 then ([current_stop], some (idx, bar.close, res.2.2))
        else
          let r := findExitLoop strat entry_price stop_price target_price rest current_stop2
          (current_stop :: r.1, r.2)

/-- Method `Backtester._find_exit`: run the loop over the supplied future bars with
`current_stop` initialised to the signal's stop price; `none` means the trade
is still open when the series ends. -/
def find_exit (strat : Option ExitPolicy) (entry_price stop_price target_price : ℚ)
    (bars : List (ℕ × Bar)) : Option (ℕ × ℚ × String) :=
  (findExitLoop strat entry_price stop_price target_price bars stop_price).2

/-- The slice `df.loc[entry_idx:].iloc[1:]` on a strictly time-ordered frame: the bars
strictly after the entry bar. -/
def futureData (entry_idx : ℕ) (df : List (ℕ × Bar)) : List (ℕ × Bar) :=
  (df.dropWhile (fun p => p.1 < entry_idx)).tail

/-- The body of the per-signal loop of `Backtester._execute_trades`: skip the
signal when a price field is missing (`pd.isna`) or sizing is invalid or no
exit is found; otherwise build the ledger row exactly as the source does. -/
def processSignal (bt : Backtester) (strat : Option ExitPolicy) (df : List (ℕ × Bar))
    (idx : ℕ) (sig : Bar) (equity : ℚ) : Option TradeRec :=
  match sig.entry, sig.stop, sig.target with
  | some entry_price, some stop_price, some target_price =>
    let entry_price_actual := entry_price * (1 + bt.slippage_pct)
    let sizer : PositionSizer := ⟨equity, MAX_POSITION_SIZE_PCT, MAX_RISK_PER_TRADE_PCT⟩
    let sizing := calculate_shares sizer entry_price_actual stop_price none
    if sizing.valid then
      let shares := sizing.shares
      let position_value := (shares : ℚ) * entry_price_actual
      match find_exit strat entry_price_actual stop_price target_price (futureData idx df) with
      | none => none
      | some (exit_idx, exit_price, exit_reason) =>
        let exit_price_actual := exit_price * (1 - bt.slippage_pct)
        let gross_pnl := (shares : ℚ) * (exit_price_actual - entry_price_actual)
        let costs := bt.commission + bt.commission
        let net_pnl := gross_pnl - costs
        let risk := entry_price_actual - stop_price
        let r_multiple := if risk > 0 then (exit_price_actual - entry_price_actual) / risk else 0
        some { entry_date := idx, exit_date := exit_idx,
               entry_price := entry_price_actual, exit_price := exit_price_actual,
               shares := shares, position_value := position_value,
               stop_price := stop_price, target_price := target_price,
               gross_pnl := gross_pnl, commission := costs,
               slippage := (shares : ℚ) * entry_price * bt.slippage_pct * 2,
               net_pnl := net_pnl, return_pct := net_pnl / position_value,
               r_multiple := r_multiple, exit_reason := exit_reason,
               equity_after := equity + net_pnl }
    else none
  | _, _, _ => none

/-- The signal loop of `Backtester._execute_trades`: fold over the signal rows
threading the running equity; a skipped signal leaves equity untouched, a
completed trade appends its row and continues from `equity_after`. -/
def executeTradesAux (bt : Backtester) (strat : Option ExitPolicy) (df : List (ℕ × Bar)) :
    List (ℕ × Bar) → ℚ → List TradeRec
  | [], _ => []
  | (idx, sig) :: rest, equity =>
    match processSignal bt strat df idx sig equity with
    | none => executeTradesAux bt strat df rest equity
    | some tr => tr :: executeTradesAux bt strat df rest tr.equity_after

/-- Method `Backtester._execute_trades`: select the rows with `signal == 1` and run
the per-signal loop starting from the initial capital. -/
def executeTrades (bt : Backtester) (strat : Option ExitPolicy)
    (df : List (ℕ × Bar)) : List TradeRec :=
  executeTradesAux bt strat df (df.filter (fun p => p.2.signal)) bt.initial_capital

/-- Method `Backtester._calculate_equity_curve`: the initial capital at the first
trade's entry date, then one `(exit_date, equity_after)` point per trade; a
lone initial-capital point when there are no trades. -/
def calculate_equity_curve (bt : Backtester) (trades : List TradeRec) : List (ℕ × ℚ) :=
  match trades with
  | [] => [(0, bt.initial_capital)]
  | t :: _ =>
    (t.entry_date, bt.initial_capital) :: trades.map (fun tr => (tr.exit_date, tr.equity_after))

/-- The total `trades['commission'].sum()` from `Backtester._calculate_metrics`. -/
def totalCommission (trades : List TradeRec) : ℚ :=
  (trades.map (fun t => t.commission)).sum

/-- The total `trades['slippage'].sum()` from `Backtester._calculate_metrics`. -/
def totalSlippage (trades : List TradeRec) : ℚ :=
  (trades.map (fun t => t.slippage)).sum

/-- Helper for `runningMax`: running maximum with accumulator `m`. -/
def runningMaxGo : ℚ → List ℚ → List ℚ
  | m, [] => [m]
  | m, y :: ys => m :: runningMaxGo (max m y) ys

/-- The series `equity_curve.cummax()`: running maximum of the equity values. -/
def runningMax : List ℚ → List ℚ
  | [] => []
  | x :: xs => runningMaxGo x xs

/-- The series `running_max - equity_curve` from `Backtester._calculate_metrics`. -/
def drawdowns (ec : List ℚ) : List ℚ :=
  (runningMax ec).zipWith (fun a b => a - b) ec

/-- The reduction `pandas.Series.max` on the values of a nonempty series (0 on empty). -/
def listMax : List ℚ → ℚ
  | [] => 0
  | x :: xs => xs.foldl max x

/-- The value `drawdown.max()`: the maximum dollar drawdown. -/
def max_drawdown (ec : List ℚ) : ℚ := listMax (drawdowns ec)

/-- First index satisfying a predicate (length of the list when none does). -/
def findIdxQ (p : ℚ → Bool) : List ℚ → ℕ
  | [] => 0
  | x :: xs => if p x then 0 else findIdxQ p xs + 1

/-- The index `drawdown.idxmax()`: position of the first occurrence of the maximum. -/
def idxMax (l : List ℚ) : ℕ := findIdxQ (fun x => decide (x = listMax l)) l

/-- The `max_drawdown_pct` computation of `Backtester._calculate_metrics`:
divide the maximum dollar drawdown by the running maximum at the point where
that maximum drawdown occurred; 0 when the maximum drawdown is not positive. -/
def max_drawdown_pct (ec : List ℚ) : ℚ :=
  if max_drawdown ec > 0 then
    max_drawdown ec / (runningMax ec).getD (idxMax (drawdowns ec)) 0
  else 0

/-- One entry of the `current_positions` list consumed by
`RiskManager.check_pre_trade`: the mandatory `'symbol'` key and the
`'market_value'` value read with `.get(..., 0)`. -/
structure Position where
  symbol : String
  market_value : ℚ
deriving DecidableEq

/-- The `RiskManager.__init__` state from `risk.py`. -/
structure RiskManager where
  equity : ℚ
  max_positions : ℕ
  max_position_pct : ℚ
  max_risk_pct : ℚ
deriving DecidableEq

/-- Method `RiskManager.check_pre_trade` from `risk.py`: the fixed ordered battery of
checks, each appending its failure reason and clearing `approved` without
short-circuiting; `liquidity_check` is the optional dict, modelled by its
`avg_dollar_volume` value (a falsy/absent dict is `none`); the long-only
check is a no-op in the source; the final affirmative message is appended
only when everything passed. -/
def check_pre_trade (rm : RiskManager) (symbol : String)
    (entry_price position_value risk_dollars : ℚ)
    (current_positions : List Position) (liquidity_check : Option ℚ) :
    Bool × List String :=
  let s0 : Bool × List String := (true, [])
  let s1 :=
    if current_positions.length ≥ rm.max_positions ∧
        ¬ (current_positions.any (fun p => p.symbol == symbol)) = true then
      (false, s0.2 ++ ["Max positions (" ++ toString rm.max_positions ++ ") reached. Currently holding "
        ++ toString current_positions.length])
    else s0
  let s2 :=
    if position_value / rm.equity > rm.max_position_pct then
      (false, s1.2 ++ ["Position size exceeds max"])
    else s1
  let s3 :=
    if risk_dollars / rm.equity > rm.max_risk_pct then
      (false, s2.2 ++ ["Risk exceeds max"])
    else s2
  let s4 :=
    if entry_price < MIN_STOCK_PRICE then
      (false, s3.2 ++ ["Price below minimum"])
    else s3
  let s5 :=
    match liquidity_check with
    | none => s4
    | some avg_volume =>
      if avg_volume < MIN_AVG_DOLLAR_VOLUME then
        (false, s4.2 ++ ["Avg dollar volume below minimum"])
      else s4
  let s6 :=
    if LEVERAGE_ALLOWED = false then
      let total_exposure :=
        (current_positions.map (fun p => p.market_value)).sum + position_value
      if total_exposure > rm.equity * (101 / 100) then
        (false, s5.2 ++ ["Total exposure would exceed equity (leverage not allowed)"])
      else s5
    else s5
  let s7 :=
    if (current_positions.any (fun p => p.symbol == symbol)) = true then
      (false, s6.2 ++ ["Already have position in " ++ symbol])
    else s6
  if s7.1 then (s7.1, s7.2 ++ ["All risk checks passed"]) else s7

/-- The list of the seven applicable failure conditions of `check_pre_trade`,
in source order, used to state that the battery never short-circuits. -/
def preTradeFailures (rm : RiskManager) (symbol : String)
    (entry_price position_value risk_dollars : ℚ)
    (current_positions : List Position) (liquidity_check : Option ℚ) : List Bool :=
  [ if current_positions.length ≥ rm.max_positions ∧
        ¬ (current_positions.any (fun p => p.symbol == symbol)) = true then true else false,
    if position_value / rm.equity > rm.max_position_pct then true else false,
    if risk_dollars / rm.equity > rm.max_risk_pct then true else false,
    if entry_price < MIN_STOCK_PRICE then true else false,
    (match liquidity_check with
     | none => false
     | some avg_volume =>
       if avg_volume < MIN_AVG_DOLLAR_VOLUME then true else false),
    if (current_positions.map (fun p => p.market_value)).sum + position_value >
        rm.equity * (101 / 100) then true else false,
    if (current_positions.any (fun p => p.symbol == symbol)) = true then true else false ]

/-- A two-bar series with a valid signal on bar 0 (entry 100, stop 95, target
110) whose trade exits at the target on bar 1. -/
def demoDf : List (ℕ × Bar) :=
  [ (0, ⟨101, 99, 100, none, true, some 100, some 95, some 110⟩),
    (1, ⟨111, 105, 110, none, false, none, none, none⟩) ]

/-- A three-bar series with valid signals on bars 0 and 1; both trades exit at
the target on bar 2, so the second trade opens while the first is still open. -/
def overlapDf : List (ℕ × Bar) :=
  [ (0, ⟨101, 99, 100, none, true, some 100, some 95, some 110⟩),
    (1, ⟨105, 99, 101, none, true, some 100, some 95, some 110⟩),
    (2, ⟨111, 100, 110, none, false, none, none, none⟩) ]

/-- A two-bar series whose signal trade hits neither target nor stop before
the data ends: the exit search returns nothing. -/
def openEndDf : List (ℕ × Bar) :=
  [ (0, ⟨101, 99, 100, none, true, some 100, some 95, some 110⟩),
    (1, ⟨105, 96, 100, none, false, none, none, none⟩) ]

/-- A zero-slippage, per-side commission 1 configuration on 25000 capital. -/
def bt0 : Backtester := ⟨25000, 1, 0⟩

/-- The signal bar shared by the single-signal demo series. -/
def openSig : Bar := ⟨101, 99, 100, none, true, some 100, some 95, some 110⟩

/-- Modelled from the spec: the `_find_exit` loop as §4.1 words it, with the
strategy hook receiving the trade's CURRENT stop (`current_stop`, reflecting
earlier trailing raises) as its fourth argument instead of the original stop
the source passes.  Used only to compare the source behaviour against the
spec's wording. -/
def findExitLoopSpec (strat : Option ExitPolicy) (entry_price stop_price target_price : ℚ) :
    List (ℕ × Bar) → ℚ → List ℚ × Option (ℕ × ℚ × String)
  | [], _ => ([], none)
  | (idx, bar) :: rest, current_stop =>
    if bar.high ≥ target_price then
      ([current_stop], some (idx, target_price, "target"))
    else if bar.low ≤ current_stop then
      ([current_stop], some (idx, current_stop, "stop"))
    else
      match strat with
      | none =>
        let r := findExitLoopSpec strat entry_price stop_price target_price rest current_stop
        (current_stop :: r.1, r.2)
      | some check =>
        let res := check entry_price bar.close (bar.atr.getD 0) current_stop
        let current_stop2 := max current_stop res.2.1
        if res.1 then ([current_stop], some (idx, bar.close, res.2.2))
        else
          let r := findExitLoopSpec strat entry_price stop_price target_price rest current_stop2
          (current_stop :: r.1, r.2)

/-- Modelled from the spec: `_find_exit` under the spec's wording (the hook
sees the current stop); compare with `find_exit`. -/
def find_exitSpec (strat : Option ExitPolicy) (entry_price stop_price target_price : ℚ)
    (bars : List (ℕ × Bar)) : Option (ℕ × ℚ × String) :=
  (findExitLoopSpec strat entry_price stop_price target_price bars stop_price).2

/-- A probe exit hook: requests a stop raise to 97 on every bar, and asks to
exit exactly when the bar close is 120 and its fourth argument (the stop it is
shown) is still below 97.  Distinguishes being shown the original stop from
being shown the trailed current stop. -/
def probePolicy : ExitPolicy := fun _e c _a s => (decide (c = 120 ∧ s < 97), 97, "probe")

/-- Future bars for the probe run: neither target (200) nor stop is touched;
bar 1 closes at 110, bar 2 closes at 120. -/
def probeBars : List (ℕ × Bar) :=
  [ (1, ⟨150, 100, 110, none, false, none, none, none⟩),
    (2, ⟨150, 100, 120, none, false, none, none, none⟩) ]

/-- A hook that never exits and echoes back the stop it was shown. -/
def holdEcho : ExitPolicy := fun _e _c _a s => (false, s, "hold")

/-- A hook that never exits and echoes the stop it was shown only when that
stop is 95, returning 0 otherwise; agrees with `holdEcho` at 95 only. -/
def holdEcho95 : ExitPolicy := fun _e _c _a s => (false, if s = 95 then s else 0, "hold")

/-- A risk manager on 25000 equity with the configured default limits. -/
def rm0 : RiskManager := ⟨25000, MAX_POSITIONS, MAX_POSITION_SIZE_PCT, MAX_RISK_PER_TRADE_PCT⟩

/-- A bar whose high touches the target (110) and whose low breaches the
stop (95) on the same bar. -/
def barBoth : Bar := ⟨111, 90, 100, none, false, none, none, none⟩

/-- The single trade produced by `bt0` on `demoDf`: 50 shares bought at 100,
sold at the 110 target, 2 total commission, 498 net. -/
def demoTrade : TradeRec :=
  ⟨0, 1, 100, 110, 50, 5000, 95, 110, 500, 2, 0, 498, 498 / 5000, 2, "target", 25498⟩

/-!  ## Supporting lemmas  -/

/-- The `current_stop` trace of a `_find_exit` run is empty or starts with the
stop value the run was entered with. -/
lemma findExitLoop_trace_head (strat : Option ExitPolicy) (e s t : ℚ)
    (bars : List (ℕ × Bar)) (cur : ℚ) :
    (findExitLoop strat e s t bars cur).1 = [] ∨
      ∃ l, (findExitLoop strat e s t bars cur).1 = cur :: l := by
  cases bars with
  | nil => exact Or.inl rfl
  | cons hd rest =>
    obtain ⟨i, b⟩ := hd
    right
    rcases strat with _ | check
    · simp only [findExitLoop]
      split_ifs <;> exact ⟨_, rfl⟩
    · simp only [findExitLoop]
      split_ifs <;> exact ⟨_, rfl⟩


/-- C2: on every bar evaluated by `_find_exit`, the exit conditions are
resolved target-first: a bar whose high reaches the target exits at the target
price with reason target regardless of its low, and the stop exit (at the
current stop) is taken only when the target condition fails on that bar. -/
theorem exit_target_priority (strat : Option ExitPolicy) (e s t : ℚ) (i : ℕ) (b : Bar)
    (rest : List (ℕ × Bar)) (cur : ℚ) :
    (b.high ≥ t →
      findExitLoop strat e s t ((i, b) :: rest) cur = ([cur], some (i, t, "target"))) ∧
    (b.high < t → b.low ≤ cur →
      findExitLoop strat e s t ((i, b) :: rest) cur = ([cur], some (i, cur, "stop"))) := by
  constructor
  · intro h1
    simp only [findExitLoop, if_pos h1]
  · intro h1 h2
    simp only [findExitLoop, if_neg (not_le.mpr h1), if_pos h2]

/-- Witness for C2: a bar with high 111 ≥ target 110 and low 90 ≤ stop 95
exits at the target, not the stop. -/
theorem exit_target_priority_witness :
    barBoth.high ≥ 110 ∧ barBoth.low ≤ 95 ∧
      findExitLoop none 100 95 110 [(1, barBoth)] 95 = ([95], some (1, 110, "target")) :=
  ⟨by decide, by decide,
    (exit_target_priority none 100 95 110 1 barBoth [] 95).1 (by decide)⟩

/-- C3: for every exit policy the caller supplies (including one returning a
lower `new_stop`), the sequence of `current_stop` values `_find_exit`
evaluates bar by bar is non-decreasing: the stop only trails upward. -/
theorem stop_sequence_monotone (strat : Option ExitPolicy) (e s t : ℚ)
    (bars : List (ℕ × Bar)) (cur : ℚ) :
    List.Chain' (· ≤ ·) ((findExitLoop strat e s t bars cur).1) := by
  induction bars generalizing cur with
  | nil => simp [findExitLoop]
  | cons hd rest ih =>
    obtain ⟨i, b⟩ := hd
    by_cases h1 : b.high ≥ t
    · simp [findExitLoop, if_pos h1]
    · by_cases h2 : b.low ≤ cur
      · simp [findExitLoop, if_neg h1, if_pos h2]
      · rcases strat with _ | check
        · simp only [findExitLoop, if_neg h1, if_neg h2]
          refine List.Chain'.cons' (ih cur) ?_
          intro y hy
          rcases findExitLoop_trace_head none e s t rest cur with h3 | ⟨l, h3⟩ <;>
            rw [h3] at hy <;> simp_all
        · by_cases h3 : (check e b.close (b.atr.getD 0) s).1
          · simp [findExitLoop, if_neg h1, if_neg h2, h3]
          · simp only [findExitLoop, if_neg h1, if_neg h2, if_neg h3]
            refine List.Chain'.cons' (ih _) ?_
            intro y hy
            rcases findExitLoop_trace_head (some check) e s t rest
                (max cur (check e b.close (b.atr.getD 0) s).2.1) with h4 | ⟨l, h4⟩
            · rw [h4] at hy
              simp at hy
            · rw [h4] at hy
              simp only [List.head?_cons, Option.mem_def, Option.some.injEq] at hy
              exact hy ▸ le_max_left _ _

/-- C5 (amended): the fourth argument `_find_exit` passes to the strategy exit
hook is always the ORIGINAL stop from the entry signal: two hooks that agree
at that original stop value produce identical runs, whatever they do at other
stop values (in particular at the trailed current stop). -/
theorem exit_hook_sees_original_stop (f g : ExitPolicy) (e s t : ℚ)
    (h : ∀ c a, f e c a s = g e c a s) (bars : List (ℕ × Bar)) (cur : ℚ) :
    findExitLoop (some f) e s t bars cur = findExitLoop (some g) e s t bars cur := by
  induction bars generalizing cur with
  | nil => rfl
  | cons hd rest ih =>
    obtain ⟨i, b⟩ := hd
    simp only [findExitLoop]
    rw [h b.close (b.atr.getD 0)]
    split_ifs <;> simp [ih]

/-- Witness for C5 (amended): two hooks agreeing at stop 95 give the same run. -/
theorem exit_hook_sees_original_stop_witness :
    findExitLoop (some holdEcho) 100 95 200 probeBars 95 =
      findExitLoop (some holdEcho95) 100 95 200 probeBars 95 :=
  exit_hook_sees_original_stop holdEcho holdEcho95 100 95 200
    (by intro c a; simp [holdEcho, holdEcho95]) probeBars 95

/-- C5 (counterexample): a probe hook that raises the stop to 97 on every bar
and asks to exit only when shown a stop below 97 at close 120.  The source's
`_find_exit` exits with reason probe on bar 2 — so the hook was shown the
original stop 90, not the raised current stop 97 — while the spec-worded
variant (hook sees the current stop) finds no exit at all. -/
theorem exit_hook_stop_argument_counterexample :
    find_exit (some probePolicy) 100 90 200 probeBars = some (2, 120, "probe") ∧
      find_exitSpec (some probePolicy) 100 90 200 probeBars = none := by
  constructor <;> decide

/-- A ledger row is only ever built by `processSignal` with its entry date set
to the signal's bar, commission equal to entry plus exit fee, net P&L equal to
gross P&L minus that commission, and gross P&L equal to shares times the
fill-price difference. -/
lemma processSignal_some_spec (bt : Backtester) (strat : Option ExitPolicy)
    (df : List (ℕ × Bar)) (idx : ℕ) (sig : Bar) (equity : ℚ) (tr : TradeRec)
    (h : processSignal bt strat df idx sig equity = some tr) :
    tr.entry_date = idx ∧
    tr.commission = bt.commission + bt.commission ∧
    tr.net_pnl = tr.gross_pnl - tr.commission ∧
    tr.gross_pnl = (tr.shares : ℚ) * (tr.exit_price - tr.entry_price) := by
  simp only [processSignal] at h
  split at h
  · split at h
    · split at h
      · exact absurd h (by simp)
      · rename_i heq
        obtain ⟨rfl⟩ := Option.some.injEq _ _ ▸ h
        exact ⟨rfl, rfl, rfl, rfl⟩
    · exact absurd h (by simp)
  · exact absurd h (by simp)

/-- Every row the signal loop appends satisfies the cost identities. -/
lemma executeTradesAux_pnl (bt : Backtester) (strat : Option ExitPolicy)
    (df : List (ℕ × Bar)) :
    ∀ (sigs : List (ℕ × Bar)) (equity : ℚ) (tr : TradeRec),
      tr ∈ executeTradesAux bt strat df sigs equity →
      tr.net_pnl = tr.gross_pnl - tr.commission ∧
      tr.commission = 2 * bt.commission ∧
      tr.gross_pnl = (tr.shares : ℚ) * (tr.exit_price - tr.entry_price) := by
  intro sigs
  induction sigs with
  | nil => intro equity tr htr; simp [executeTradesAux] at htr
  | cons hd rest ih =>
    obtain ⟨idx, sig⟩ := hd
    intro equity tr htr
    rcases hps : processSignal bt strat df idx sig equity with _ | tr'
    · rw [executeTradesAux, hps] at htr
      exact ih equity tr htr
    · rw [executeTradesAux, hps] at htr
      rcases List.mem_cons.mp htr with rfl | hmem
      · obtain ⟨-, hc, hn, hg⟩ := processSignal_some_spec bt strat df idx sig equity tr hps
        exact ⟨hn, by rw [hc, two_mul], hg⟩
      · exact ih tr'.equity_after tr hmem

/-- C8: for every trade in the ledger produced by `_execute_trades`,
`net_pnl = gross_pnl − commission`, the recorded commission is exactly twice
the configured per-trade commission (entry fee plus exit fee), and
`gross_pnl = shares × (exit fill − entry fill)`. -/
theorem ledger_pnl_accounting (bt : Backtester) (strat : Option ExitPolicy)
    (df : List (ℕ × Bar)) (tr : TradeRec) (h : tr ∈ executeTrades bt strat df) :
    tr.net_pnl = tr.gross_pnl - tr.commission ∧
    tr.commission = 2 * bt.commission ∧
    tr.gross_pnl = (tr.shares : ℚ) * (tr.exit_price - tr.entry_price) :=
  executeTradesAux_pnl bt strat df _ bt.initial_capital tr h

/-- Witness for C8: the demo run's single trade satisfies the identities. -/
theorem ledger_pnl_accounting_witness :
    executeTrades bt0 none demoDf = [demoTrade] ∧
    (demoTrade.net_pnl = demoTrade.gross_pnl - demoTrade.commission ∧
      demoTrade.commission = 2 * bt0.commission ∧
      demoTrade.gross_pnl = (demoTrade.shares : ℚ) * (demoTrade.exit_price - demoTrade.entry_price)) := by
  have hrun : executeTrades bt0 none demoDf = [demoTrade] := by
    norm_num [executeTrades, executeTradesAux, processSignal, calculate_shares, find_exit,
      findExitLoop, futureData, pyInt, bt0, demoDf, demoTrade, MAX_POSITION_SIZE_PCT,
      MAX_RISK_PER_TRADE_PCT, SizingResult.base]
  exact ⟨hrun, ledger_pnl_accounting bt0 none demoDf demoTrade
    (hrun ▸ List.mem_singleton.mpr rfl)⟩

/-- C4: a signal whose trade reaches no exit before the series ends is
discarded entirely: the run over the remaining signals — ledger, running
equity used for later sizing, equity curve, and both cost totals — is exactly
the run with that signal removed. -/
theorem unexited_signal_discarded (bt : Backtester) (strat : Option ExitPolicy)
    (df : List (ℕ × Bar)) (idx : ℕ) (sig : Bar) (rest : List (ℕ × Bar)) (equity : ℚ)
    (en sp tp : ℚ) (he : sig.entry = some en) (hs : sig.stop = some sp)
    (ht : sig.target = some tp)
    (hexit : find_exit strat (en * (1 + bt.slippage_pct)) sp tp (futureData idx df) = none) :
    executeTradesAux bt strat df ((idx, sig) :: rest) equity =
      executeTradesAux bt strat df rest equity ∧
    calculate_equity_curve bt (executeTradesAux bt strat df ((idx, sig) :: rest) equity) =
      calculate_equity_curve bt (executeTradesAux bt strat df rest equity) ∧
    totalCommission (executeTradesAux bt strat df ((idx, sig) :: rest) equity) =
      totalCommission (executeTradesAux bt strat df rest equity) ∧
    totalSlippage (executeTradesAux bt strat df ((idx, sig) :: rest) equity) =
      totalSlippage (executeTradesAux bt strat df rest equity) := by
  have hnone : processSignal bt strat df idx sig equity = none := by
    simp only [processSignal, he, hs, ht]
    split
    · rw [hexit]
    · rfl
  have hmain : executeTradesAux bt strat df ((idx, sig) :: rest) equity =
      executeTradesAux bt strat df rest equity := by
    rw [executeTradesAux, hnone]
  exact ⟨hmain, by rw [hmain], by rw [hmain], by rw [hmain]⟩

/-- Witness for C4: the `openEndDf` signal finds no exit and is dropped. -/
theorem unexited_signal_discarded_witness :
    openSig.entry = some 100 ∧ openSig.stop = some 95 ∧ openSig.target = some 110 ∧
    find_exit none (100 * (1 + bt0.slippage_pct)) 95 110 (futureData 0 openEndDf) = none ∧
    executeTradesAux bt0 none openEndDf [(0, openSig)] 25000 =
      executeTradesAux bt0 none openEndDf [] 25000 := by
  have hexit : find_exit none (100 * (1 + bt0.slippage_pct)) 95 110 (futureData 0 openEndDf) = none := by
    norm_num [find_exit, findExitLoop, futureData, bt0, openEndDf]
  exact ⟨rfl, rfl, rfl, hexit,
    (unexited_signal_discarded bt0 none openEndDf 0 openSig [] 25000 100 95 110
      rfl rfl rfl hexit).1⟩

/-- Entry dates in the ledger come from the processed signal rows, in order. -/
lemma executeTradesAux_entry_dates_sublist (bt : Backtester) (strat : Option ExitPolicy)
    (df : List (ℕ × Bar)) :
    ∀ (sigs : List (ℕ × Bar)) (equity : ℚ),
      ((executeTradesAux bt strat df sigs equity).map (fun t => t.entry_date)).Sublist
        (sigs.map Prod.fst) := by
  intro sigs
  induction sigs with
  | nil => intro equity; simp [executeTradesAux]
  | cons hd rest ih =>
    obtain ⟨idx, sig⟩ := hd
    intro equity
    rcases hps : processSignal bt strat df idx sig equity with _ | tr
    · rw [executeTradesAux, hps]
      exact (ih equity).cons idx
    · rw [executeTradesAux, hps]
      have hidx : tr.entry_date = idx :=
        (processSignal_some_spec bt strat df idx sig equity tr hps).1
      simpa [hidx] using (ih tr.equity_after).cons₂ idx

/-- C1 (amended): the ledger lists trades in strictly increasing entry-time
order whenever the series is strictly time-ordered — but nothing more: a
signal opens a trade regardless of whether an earlier trade is still open. -/
theorem ledger_entries_strictly_ordered (bt : Backtester) (strat : Option ExitPolicy)
    (df : List (ℕ × Bar)) (h : List.Chain' (· < ·) (df.map Prod.fst)) :
    List.Chain' (· < ·) ((executeTrades bt strat df).map (fun t => t.entry_date)) := by
  have h1 : ((df.filter (fun p => p.2.signal)).map Prod.fst).Sublist (df.map Prod.fst) :=
    (List.filter_sublist df).map Prod.fst
  have h2 := executeTradesAux_entry_dates_sublist bt strat df
    (df.filter (fun p => p.2.signal)) bt.initial_capital
  exact h.sublist (h2.trans h1)

/-- Witness for C1 (amended): `overlapDf` is strictly time-ordered and its
ledger's entry dates are strictly increasing. -/
theorem ledger_entries_strictly_ordered_witness :
    List.Chain' (· < ·) (overlapDf.map Prod.fst) ∧
    List.Chain' (· < ·) ((executeTrades bt0 none overlapDf).map (fun t => t.entry_date)) :=
  ⟨by norm_num [overlapDf, List.chain'_cons], ledger_entries_strictly_ordered bt0 none overlapDf
    (by norm_num [overlapDf, List.chain'_cons])⟩

/-- C1 (counterexample): on `overlapDf` the simulator opens the bar-1 signal
while the bar-0 trade is still open (both exit on bar 2), so the ledger's
trades overlap in time: the second entry (1) precedes the first exit (2). -/
theorem single_open_position_counterexample :
    (executeTrades bt0 none overlapDf).map (fun t => (t.entry_date, t.exit_date)) =
      [(0, 2), (1, 2)] ∧
    ¬ List.Chain' (fun a b => a.2 ≤ b.1)
        ((executeTrades bt0 none overlapDf).map (fun t => (t.entry_date, t.exit_date))) := by
  have hrun : (executeTrades bt0 none overlapDf).map (fun t => (t.entry_date, t.exit_date)) =
      [(0, 2), (1, 2)] := by
    norm_num [executeTrades, executeTradesAux, processSignal, calculate_shares, find_exit,
      findExitLoop, futureData, pyInt, bt0, overlapDf, MAX_POSITION_SIZE_PCT,
      MAX_RISK_PER_TRADE_PCT, SizingResult.base]
  refine ⟨hrun, ?_⟩
  rw [hrun]
  norm_num [List.chain'_cons]

/-- C10 (counterexample): with a negative per-trade commission (−5) — an
invalid configuration — the run does not fail: it silently simulates and
records a complete trade (even crediting the negative costs: net 510 on a
500 gross). -/
theorem invalid_config_not_rejected_counterexample :
    (-5 : ℚ) < 0 ∧
    executeTrades ⟨25000, -5, 0⟩ none demoDf =
      [⟨0, 1, 100, 110, 50, 5000, 95, 110, 500, -10, 0, 510, 510 / 5000, 2, "target", 25510⟩] := by
  constructor
  · norm_num
  · norm_num [executeTrades, executeTradesAux, processSignal, calculate_shares, find_exit,
      findExitLoop, futureData, pyInt, demoDf, MAX_POSITION_SIZE_PCT,
      MAX_RISK_PER_TRADE_PCT, SizingResult.base]

/-- C10 (amended): the engine performs no configuration validation and a run
never fails on it: negative commission or negative slippage still produces a
ledger (with the bogus costs simply carried through), and non-positive initial
capital silently yields an empty ledger via sizing rejection — in every case a
normal result, never an error. -/
theorem invalid_config_runs_silently :
    executeTrades ⟨25000, -5, 0⟩ none demoDf ≠ [] ∧
    totalCommission (executeTrades ⟨25000, -5, 0⟩ none demoDf) = -10 ∧
    executeTrades ⟨25000, 1, -1/1000⟩ none demoDf ≠ [] ∧
    executeTrades ⟨-100, 1, 0⟩ none demoDf = [] ∧
    executeTrades ⟨0, 1, 0⟩ none demoDf = [] := by
  refine ⟨?_, ?_, ?_, ?_, ?_⟩ <;>
    norm_num [executeTrades, executeTradesAux, processSignal, calculate_shares, find_exit,
      findExitLoop, futureData, pyInt, totalCommission, demoDf, MAX_POSITION_SIZE_PCT,
      MAX_RISK_PER_TRADE_PCT, SizingResult.base]

/-- Python `int()` agrees with the floor on non-negative arguments. -/
lemma pyInt_eq_floor (q : ℚ) (h : 0 ≤ q) : pyInt q = ⌊q⌋ := if_pos h

/-- C6: with `entry > stop > 0` and positive equity (and the caps
non-negative), `calculate_shares` returns
`min(floor(equity·max_risk_pct/(entry − stop)), floor(equity·max_position_pct/entry))`
shares, valid exactly when that minimum is at least 1; the two spec scenarios
give 50 shares (valid) and 7 shares (valid). -/
theorem sizer_min_of_caps (ps : PositionSizer) (entry_price stop_price : ℚ)
    (h1 : stop_price < entry_price) (h2 : 0 < stop_price) (h3 : 0 < ps.equity)
    (h4 : 0 ≤ ps.max_risk_pct) (h5 : 0 ≤ ps.max_position_pct) :
    ((calculate_shares ps entry_price stop_price none).valid = true ↔
      1 ≤ min ⌊ps.equity * ps.max_risk_pct / (entry_price - stop_price)⌋
            ⌊ps.equity * ps.max_position_pct / entry_price⌋) ∧
    (1 ≤ min ⌊ps.equity * ps.max_risk_pct / (entry_price - stop_price)⌋
          ⌊ps.equity * ps.max_position_pct / entry_price⌋ →
      (calculate_shares ps entry_price stop_price none).shares =
        min ⌊ps.equity * ps.max_risk_pct / (entry_price - stop_price)⌋
          ⌊ps.equity * ps.max_position_pct / entry_price⌋) ∧
    ((calculate_shares ⟨25000, 3/10, 1/100⟩ 150 145 none).shares = 50 ∧
      (calculate_shares ⟨25000, 3/10, 1/100⟩ 150 145 none).valid = true) ∧
    ((calculate_shares ⟨25000, 3/10, 1/100⟩ 1000 995 none).shares = 7 ∧
      (calculate_shares ⟨25000, 3/10, 1/100⟩ 1000 995 none).valid = true) := by
  have hep : (0:ℚ) < entry_price := h2.trans h1
  have hrps : (0:ℚ) < entry_price - stop_price := by linarith
  have hA0 : 0 ≤ ps.equity * ps.max_risk_pct / (entry_price - stop_price) := by positivity
  have hB0 : 0 ≤ ps.equity * ps.max_position_pct / entry_price := by positivity
  have hne1 : ¬ (entry_price ≤ 0) := not_le.mpr hep
  have hne2 : ¬ (stop_price ≤ 0) := not_le.mpr h2
  have hne3 : ¬ (entry_price ≤ stop_price) := not_le.mpr h1
  have hne4 : ¬ (ps.equity ≤ 0) := not_le.mpr h3
  have hsc1 : (calculate_shares ⟨25000, 3/10, 1/100⟩ 150 145 none).shares = 50 ∧
      (calculate_shares ⟨25000, 3/10, 1/100⟩ 150 145 none).valid = true := by
    norm_num [calculate_shares, pyInt, SizingResult.base]
  have hsc2 : (calculate_shares ⟨25000, 3/10, 1/100⟩ 1000 995 none).shares = 7 ∧
      (calculate_shares ⟨25000, 3/10, 1/100⟩ 1000 995 none).valid = true := by
    norm_num [calculate_shares, pyInt, SizingResult.base]
  by_cases hm : 1 ≤ min ⌊ps.equity * ps.max_risk_pct / (entry_price - stop_price)⌋
      ⌊ps.equity * ps.max_position_pct / entry_price⌋
  · have hnA : ((min ⌊ps.equity * ps.max_risk_pct / (entry_price - stop_price)⌋
        ⌊ps.equity * ps.max_position_pct / entry_price⌋ : ℤ) : ℚ) ≤
        ps.equity * ps.max_risk_pct / (entry_price - stop_price) :=
      le_trans (by exact_mod_cast min_le_left _ _) (Int.floor_le _)
    have hnB : ((min ⌊ps.equity * ps.max_risk_pct / (entry_price - stop_price)⌋
        ⌊ps.equity * ps.max_position_pct / entry_price⌋ : ℤ) : ℚ) ≤
        ps.equity * ps.max_position_pct / entry_price :=
      le_trans (by exact_mod_cast min_le_right _ _) (Int.floor_le _)
    have hpos_pct : ((min ⌊ps.equity * ps.max_risk_pct / (entry_price - stop_price)⌋
        ⌊ps.equity * ps.max_position_pct / entry_price⌋ : ℤ) : ℚ) * entry_price / ps.equity ≤
        ps.max_position_pct := by
      rw [div_le_iff₀ h3]
      have h' := mul_le_mul_of_nonneg_right hnB hep.le
      rw [div_mul_cancel₀ _ hep.ne'] at h'
      linarith
    have hrisk_pct : ((min ⌊ps.equity * ps.max_risk_pct / (entry_price - stop_price)⌋
        ⌊ps.equity * ps.max_position_pct / entry_price⌋ : ℤ) : ℚ) *
        (entry_price - stop_price) / ps.equity ≤ ps.max_risk_pct := by
      rw [div_le_iff₀ h3]
      have h' := mul_le_mul_of_nonneg_right hnA hrps.le
      rw [div_mul_cancel₀ _ hrps.ne'] at h'
      linarith
    have hval : (calculate_shares ps entry_price stop_price none).valid = true := by
      simp only [calculate_shares, Option.getD_none, if_neg hne1, if_neg hne2, if_neg hne3,
        if_neg hne4, pyInt_eq_floor _ hA0, pyInt_eq_floor _ hB0, if_neg (not_lt.mpr hm),
        if_neg (not_lt.mpr hpos_pct), if_neg (not_lt.mpr hrisk_pct)]
    have hsh : (calculate_shares ps entry_price stop_price none).shares =
        min ⌊ps.equity * ps.max_risk_pct / (entry_price - stop_price)⌋
          ⌊ps.equity * ps.max_position_pct / entry_price⌋ := by
      simp only [calculate_shares, Option.getD_none, if_neg hne1, if_neg hne2, if_neg hne3,
        if_neg hne4, pyInt_eq_floor _ hA0, pyInt_eq_floor _ hB0, if_neg (not_lt.mpr hm),
        if_neg (not_lt.mpr hpos_pct), if_neg (not_lt.mpr hrisk_pct)]
    exact ⟨⟨fun _ => hm, fun _ => hval⟩, fun _ => hsh, hsc1, hsc2⟩
  · have hm' : min ⌊ps.equity * ps.max_risk_pct / (entry_price - stop_price)⌋
        ⌊ps.equity * ps.max_position_pct / entry_price⌋ < 1 := not_le.mp hm
    have hval : (calculate_shares ps entry_price stop_price none).valid = false := by
      simp only [calculate_shares, Option.getD_none, if_neg hne1, if_neg hne2, if_neg hne3,
        if_neg hne4, pyInt_eq_floor _ hA0, pyInt_eq_floor _ hB0, if_pos hm', SizingResult.base]
    refine ⟨⟨fun hv => ?_, fun hge => absurd hge hm⟩, fun hge => absurd hge hm, hsc1, hsc2⟩
    rw [hval] at hv
    exact absurd hv (by decide)

/-- Witness for C6: scenario-1 inputs satisfy the hypotheses and the minimum
formula decides validity. -/
theorem sizer_min_of_caps_witness :
    (145:ℚ) < 150 ∧ (0:ℚ) < 145 ∧ (0:ℚ) < 25000 ∧ (0:ℚ) ≤ 1/100 ∧ (0:ℚ) ≤ 3/10 ∧
    ((calculate_shares ⟨25000, 3/10, 1/100⟩ 150 145 none).valid = true ↔
      1 ≤ min ⌊(25000:ℚ) * (1/100) / (150 - 145)⌋ ⌊(25000:ℚ) * (3/10) / 150⌋) :=
  ⟨by norm_num, by norm_num, by norm_num, by norm_num, by norm_num,
    (sizer_min_of_caps ⟨25000, 3/10, 1/100⟩ 150 145 (by norm_num) (by norm_num)
      (by norm_num : (0:ℚ) < 25000) (by norm_num : (0:ℚ) ≤ 1/100)
      (by norm_num : (0:ℚ) ≤ 3/10)).1⟩

/-- The seed of a max-fold is a lower bound of the fold. -/
lemma le_foldl_max (xs : List ℚ) : ∀ a : ℚ, a ≤ xs.foldl max a := by
  induction xs with
  | nil => intro a; simp
  | cons x xs ih => intro a; exact le_trans (le_max_left a x) (ih (max a x))

/-- Every member of the list is a lower bound of a max-fold over it. -/
lemma mem_le_foldl_max (xs : List ℚ) : ∀ (a x : ℚ), x ∈ xs → x ≤ xs.foldl max a := by
  induction xs with
  | nil => intro a x hx; simp at hx
  | cons y ys ih =>
    intro a x hx
    rcases List.mem_cons.mp hx with rfl | hx'
    · exact le_trans (le_max_right a x) (le_foldl_max ys (max a x))
    · exact ih (max a y) x hx'

/-- A max-fold returns its seed or a member of the list. -/
lemma foldl_max_mem (xs : List ℚ) : ∀ a : ℚ, xs.foldl max a = a ∨ xs.foldl max a ∈ xs := by
  induction xs with
  | nil => intro a; exact Or.inl rfl
  | cons y ys ih =>
    intro a
    rcases ih (max a y) with h | h
    · rcases max_choice a y with hm | hm
      · left; rw [List.foldl_cons, h, hm]
      · right; rw [List.foldl_cons, h, hm]; exact List.mem_cons_self _ _
    · right; exact List.mem_cons_of_mem _ h

/-- The value `listMax` bounds every member of the list. -/
lemma le_listMax (l : List ℚ) (x : ℚ) (hx : x ∈ l) : x ≤ listMax l := by
  cases l with
  | nil => simp at hx
  | cons y ys =>
    rcases List.mem_cons.mp hx with rfl | hx'
    · exact le_foldl_max ys x
    · exact mem_le_foldl_max ys y x hx'

/-- The value `listMax` of a nonempty list is attained. -/
lemma listMax_mem (l : List ℚ) (h : l ≠ []) : listMax l ∈ l := by
  cases l with
  | nil => exact absurd rfl h
  | cons y ys =>
    show ys.foldl max y ∈ y :: ys
    rcases foldl_max_mem ys y with h' | h'
    · rw [h']; exact List.mem_cons_self _ _
    · exact List.mem_cons_of_mem _ h'

/-- Function `findIdxQ` finds the first index satisfying the predicate. -/
lemma findIdxQ_spec (p : ℚ → Bool) : ∀ l : List ℚ, (∃ x ∈ l, p x = true) →
    findIdxQ p l < l.length ∧ p (l.getD (findIdxQ p l) 0) = true ∧
      ∀ j < findIdxQ p l, p (l.getD j 0) = false := by
  intro l
  induction l with
  | nil => intro h; simp at h
  | cons x xs ih =>
    intro h
    by_cases hp : p x = true
    · refine ⟨by simp [findIdxQ, hp], by simp [findIdxQ, hp], ?_⟩
      intro j hj
      simp [findIdxQ, hp] at hj
    · have h' : ∃ y ∈ xs, p y = true := by
        rcases h with ⟨y, hy, hpy⟩
        rcases List.mem_cons.mp hy with rfl | hy'
        · exact absurd hpy hp
        · exact ⟨y, hy', hpy⟩
      obtain ⟨hlt, hget, hprev⟩ := ih h'
      refine ⟨?_, ?_, ?_⟩
      · simp only [findIdxQ, if_neg hp, List.length_cons]
        omega
      · simpa [findIdxQ, if_neg hp, List.getD_cons_succ] using hget
      · intro j hj
        rw [findIdxQ, if_neg hp] at hj
        cases j with
        | zero =>
          simpa [List.getD_cons_zero] using (Bool.not_eq_true _).mp hp
        | succ k =>
          rw [List.getD_cons_succ]
          exact hprev k (by omega)

/-- Helper `runningMaxGo` adds one point per input bar plus the seed. -/
lemma runningMaxGo_length : ∀ (xs : List ℚ) (m : ℚ),
    (runningMaxGo m xs).length = xs.length + 1 := by
  intro xs
  induction xs with
  | nil => intro m; rfl
  | cons y ys ih => intro m; simp [runningMaxGo, ih]

/-- The running maximum has one point per equity point. -/
lemma runningMax_length (ec : List ℚ) : (runningMax ec).length = ec.length := by
  cases ec with
  | nil => rfl
  | cons x xs => simp [runningMax, runningMaxGo_length]

/-- The drawdown series has one point per equity point. -/
lemma drawdowns_length (ec : List ℚ) : (drawdowns ec).length = ec.length := by
  simp [drawdowns, runningMax_length]

/-- C7: the reported maximum-drawdown percentage divides the maximum dollar
drawdown by the running maximum AT THE FIRST POINT where that maximum
drawdown occurs — not by the overall peak equity — and is 0 when the maximum
dollar drawdown is 0.  On the curve 100, 50, 200, 190 this gives 50/100 = 1/2,
not 50/200 = 1/4. -/
theorem max_drawdown_pct_denominator (ec : List ℚ) (h : ec ≠ []) :
    (max_drawdown ec = 0 → max_drawdown_pct ec = 0) ∧
    (0 < max_drawdown ec →
      idxMax (drawdowns ec) < (drawdowns ec).length ∧
      (drawdowns ec).getD (idxMax (drawdowns ec)) 0 = max_drawdown ec ∧
      (∀ j < idxMax (drawdowns ec), (drawdowns ec).getD j 0 < max_drawdown ec) ∧
      max_drawdown_pct ec =
        max_drawdown ec / (runningMax ec).getD (idxMax (drawdowns ec)) 0) ∧
    (max_drawdown_pct [100, 50, 200, 190] = 1 / 2 ∧
      max_drawdown [100, 50, 200, 190] = 50 ∧
      listMax (runningMax [100, 50, 200, 190]) = 200 ∧
      max_drawdown_pct [100, 50, 200, 190] ≠
        max_drawdown [100, 50, 200, 190] / listMax (runningMax [100, 50, 200, 190])) := by
  refine ⟨?_, ?_, ?_⟩
  · intro h0
    simp [max_drawdown_pct, h0]
  · intro hpos
    have hddne : drawdowns ec ≠ [] := by
      intro hc
      apply h
      have hl := drawdowns_length ec
      rw [hc] at hl
      exact List.length_eq_zero.mp hl.symm
    have hex : ∃ x ∈ drawdowns ec,
        (fun x => decide (x = listMax (drawdowns ec))) x = true :=
      ⟨listMax (drawdowns ec), listMax_mem _ hddne, by simp⟩
    obtain ⟨hlt, hget, hprev⟩ := findIdxQ_spec _ (drawdowns ec) hex
    refine ⟨hlt, of_decide_eq_true hget, ?_, ?_⟩
    · intro j hj
      have hne : (drawdowns ec).getD j 0 ≠ listMax (drawdowns ec) :=
        of_decide_eq_false (hprev j hj)
      have hjlen : j < (drawdowns ec).length := hj.trans hlt
      have hmem : (drawdowns ec).getD j 0 ∈ drawdowns ec := by
        rw [List.getD_eq_getElem _ _ hjlen]
        exact List.getElem_mem hjlen
      exact lt_of_le_of_ne (le_listMax _ _ hmem) hne
    · rw [max_drawdown_pct, if_pos hpos]
  · norm_num [max_drawdown_pct, max_drawdown, drawdowns, runningMax, runningMaxGo,
      listMax, idxMax, findIdxQ, max_def]

/-- Witness for C7: the curve 100, 50, 200, 190 is nonempty and its zero-case
clause holds. -/
theorem max_drawdown_pct_denominator_witness :
    ([100, 50, 200, 190] : List ℚ) ≠ [] ∧
    (max_drawdown [100, 50, 200, 190] = 0 → max_drawdown_pct [100, 50, 200, 190] = 0) :=
  ⟨by simp, (max_drawdown_pct_denominator [100, 50, 200, 190] (by simp)).1⟩

set_option maxHeartbeats 3200000 in
/-- C9: `check_pre_trade` never short-circuits: it is approved exactly when no
applicable check fails, its reasons list carries one entry per failed check
when any fail, and on approval the reasons list is exactly the single
affirmative message. -/
theorem risk_checks_accumulate (rm : RiskManager) (symbol : String)
    (entry_price position_value risk_dollars : ℚ)
    (current_positions : List Position) (liquidity_check : Option ℚ)
    (h : 0 < rm.equity) :
    ((check_pre_trade rm symbol entry_price position_value risk_dollars current_positions
        liquidity_check).1 = true ↔
      (preTradeFailures rm symbol entry_price position_value risk_dollars current_positions
        liquidity_check).count true = 0) ∧
    ((check_pre_trade rm symbol entry_price position_value risk_dollars current_positions
        liquidity_check).2.length =
      if (preTradeFailures rm symbol entry_price position_value risk_dollars current_positions
          liquidity_check).count true = 0 then 1
      else (preTradeFailures rm symbol entry_price position_value risk_dollars current_positions
          liquidity_check).count true) ∧
    ((check_pre_trade rm symbol entry_price position_value risk_dollars current_positions
        liquidity_check).1 = true →
      (check_pre_trade rm symbol entry_price position_value risk_dollars current_positions
        liquidity_check).2 = ["All risk checks passed"]) := by
  rcases liquidity_check with _ | av
  · by_cases h1 : rm.max_positions ≤ current_positions.length <;>
    by_cases h7 : current_positions.any (fun p => p.symbol == symbol) = true <;>
    by_cases h2 : rm.max_position_pct < position_value / rm.equity <;>
    by_cases h3 : rm.max_risk_pct < risk_dollars / rm.equity <;>
    by_cases h4 : entry_price < MIN_STOCK_PRICE <;>
    by_cases h6 : rm.equity * (101 / 100) <
        (current_positions.map (fun p => p.market_value)).sum + position_value <;>
    simp [check_pre_trade, preTradeFailures, LEVERAGE_ALLOWED, h1, h2, h3, h4, h6, h7,
      List.count_cons]
  · by_cases h1 : rm.max_positions ≤ current_positions.length <;>
    by_cases h7 : current_positions.any (fun p => p.symbol == symbol) = true <;>
    by_cases h2 : rm.max_position_pct < position_value / rm.equity <;>
    by_cases h3 : rm.max_risk_pct < risk_dollars / rm.equity <;>
    by_cases h4 : entry_price < MIN_STOCK_PRICE <;>
    by_cases h5 : av < MIN_AVG_DOLLAR_VOLUME <;>
    by_cases h6 : rm.equity * (101 / 100) <
        (current_positions.map (fun p => p.market_value)).sum + position_value <;>
    simp [check_pre_trade, preTradeFailures, LEVERAGE_ALLOWED, h1, h2, h3, h4, h5, h6, h7,
      List.count_cons]

/-- Witness for C9: on a clean proposal against 25000 equity the check is
approved exactly when no failure is counted. -/
theorem risk_checks_accumulate_witness :
    (0:ℚ) < rm0.equity ∧
    ((check_pre_trade rm0 "AAPL" 150 7500 250 [] none).1 = true ↔
      (preTradeFailures rm0 "AAPL" 150 7500 250 [] none).count true = 0) :=
  ⟨by norm_num [rm0], (risk_checks_accumulate rm0 "AAPL" 150 7500 250 [] none
    (by norm_num [rm0])).1⟩
